import Mathlib

/-!
# Verification of `flask_redisdict` (`RedisDict`)

Shallow embedding of `src/src/flask_redisdict/flask_redisdict.py` (the
revision exercised by the repository's test suite).  A `RedisDict` holds a
flag for whether a redis client is attached, the hash key naming the remote
structure, and an optional TTL (`max_age`).  The remote store is modelled as
association lists from keys to hashes (field-name to serialized value) plus
per-key TTLs.  Every public operation returns its outcome, the (unchanged)
dictionary object, the resulting store, and the trace of remote invocations
it issued, where a pipeline execution appears as a single batched call
carrying the list of staged commands.
-/

namespace RedisDictModel

/-- Association-list lookup (first match), mirroring a string-keyed map. -/
def alookup {α : Type} : List (String × α) → String → Option α
  | [], _ => none
  | (k, v) :: rest, n => if k = n then some v else alookup rest n

/-- Association-list insert/overwrite in place (first match replaced). -/
def aset {α : Type} : List (String × α) → String → α → List (String × α)
  | [], n, w => [(n, w)]
  | (k, v) :: rest, n, w => if k = n then (n, w) :: rest else (k, v) :: aset rest n w

/-- Association-list removal of a key (all matches). -/
def aremove {α : Type} : List (String × α) → String → List (String × α)
  | [], _ => []
  | (k, v) :: rest, n => if k = n then aremove rest n else (k, v) :: aremove rest n

/-- In-memory value domain of `RedisDict`: `RedisDictValuesT` from the source
is strings, integers, booleans and nested containers (lists and
string-keyed mappings) of these. -/
inductive RValue where
  | str (s : String)
  | int (n : Int)
  | bool (b : Bool)
  | list (xs : List RValue)
  | dict (kvs : List (String × RValue))

/-- Wire form produced by the serializer: a JSON tree.  Booleans, numbers
and strings are distinct wire shapes, so the tagged encoding preserves the
original type on decode. -/
inductive Json where
  | str (s : String)
  | num (n : Int)
  | boolean (b : Bool)
  | arr (xs : List Json)
  | obj (kvs : List (String × Json))

mutual

/-- Modelled from the spec: the Serialization Adapter's encode direction
(`TaggedJSONSerializer.dumps` from Flask, external to this repository; the
spec constrains only its black-box contract).  Each in-memory value maps to
the wire shape of its own type, reconstructing nesting exactly. -/
def encode : RValue → Json
  | .str s => .str s
  | .int n => .num n
  | .bool b => .boolean b
  | .list xs => .arr (encodeList xs)
  | .dict kvs => .obj (encodeDict kvs)

/-- Encode every element of a list of values. -/
def encodeList : List RValue → List Json
  | [] => []
  | x :: xs => encode x :: encodeList xs

/-- Encode every value of a string-keyed mapping. -/
def encodeDict : List (String × RValue) → List (String × Json)
  | [] => []
  | (k, v) :: rest => (k, encode v) :: encodeDict rest

end

mutual

/-- Modelled from the spec: the Serialization Adapter's decode direction
(`TaggedJSONSerializer.loads`).  Inverse of `encode` on its image. -/
def decode : Json → RValue
  | .str s => .str s
  | .num n => .int n
  | .boolean b => .bool b
  | .arr xs => .list (decodeList xs)
  | .obj kvs => .dict (decodeDict kvs)

/-- Decode every element of a list of wire values. -/
def decodeList : List Json → List RValue
  | [] => []
  | x :: xs => decode x :: decodeList xs

/-- Decode every value of a string-keyed wire mapping. -/
def decodeDict : List (String × Json) → List (String × RValue)
  | [] => []
  | (k, v) :: rest => (k, decode v) :: decodeDict rest

end

/-- State of the backing redis store: hashes (key to field-to-value map)
and per-key TTLs, both as association lists. -/
structure Store where
  hashes : List (String × List (String × Json))
  ttls : List (String × Nat)

/-- A command stageable into a pipeline: `hset`, `hdel`, `expire`. -/
inductive Cmd where
  | hset (key field : String) (value : Json)
  | hdel (key field : String)
  | expire (key : String) (seconds : Nat)

/-- A remote invocation issued to the redis client: either a direct
(single) command or the execution of a pipeline carrying its staged
commands as one batch. -/
inductive RemoteCall where
  | hget (key field : String)
  | hlen (key : String)
  | hexists (key field : String)
  | hkeys (key : String)
  | hvals (key : String)
  | hgetall (key : String)
  | delKey (key : String)
  | existsKey (key : String)
  | pipelineExec (cmds : List Cmd)

/-- Value of field `field` of hash `key`, `none` when absent (redis
`hget`; a missing key behaves as an empty hash). -/
def hgetStore (s : Store) (key field : String) : Option Json :=
  alookup ((alookup s.hashes key).getD []) field

/-- Remove a key outright: redis `delete` (hash and its TTL vanish). -/
def delKeyStore (s : Store) (key : String) : Store :=
  { hashes := aremove s.hashes key, ttls := aremove s.ttls key }

/-- Whether hash `key` exists in the store (redis `exists`). -/
def keyExistsStore (s : Store) (key : String) : Bool :=
  (alookup s.hashes key).isSome

/-- Effect of one staged command on the store.  `hset` creates the hash if
absent; `hdel` removes the whole key once its last field is gone (redis
semantics); `expire` sets the TTL only for an existing key. -/
def applyCmd (s : Store) : Cmd → Store
  | .hset key field v =>
      let fields := (alookup s.hashes key).getD []
      { s with hashes := aset s.hashes key (aset fields field v) }
  | .hdel key field =>
      match alookup s.hashes key with
      | none => s
      | some fields =>
          let fields' := aremove fields field
          if fields'.isEmpty then delKeyStore s key
          else { s with hashes := aset s.hashes key fields' }
  | .expire key secs =>
      if (alookup s.hashes key).isSome then { s with ttls := aset s.ttls key secs }
      else s

/-- Execute a pipeline: apply its staged commands in order (one batched
round trip). -/
def execPipeline (s : Store) (cmds : List Cmd) : Store :=
  cmds.foldl applyCmd s

/-- Errors raised by `RedisDict` operations: `RedisDictNoRedisError` when no
client is attached, `KeyError(name)` on a single-field read of an absent
field. -/
inductive RError where
  | noRedis
  | keyError (name : String)

/-- The `RedisDict` object: whether a redis client is attached (`redis` in
the source is the client or `None`), the hash key, and the optional TTL. -/
structure RedisDict where
  redis : Bool
  key : String
  max_age : Option Nat

/-- Outcome of one public operation: the result or raised error, the
dictionary object afterwards, the store afterwards, and the remote calls
issued, in order. -/
structure OpResult (α : Type) where
  result : Except RError α
  dict : RedisDict
  store : Store
  calls : List RemoteCall

namespace RedisDict

/-- `RedisDict.__init__`: `self.key = key if key else self._generate_key()`
(a `None` or empty-string key argument triggers generation); `gen` stands
for the `str(uuid4())` the generator would return. -/
def init (redis : Bool) (key : Option String) (max_age : Option Nat) (gen : String) : RedisDict :=
  { redis := redis
    key := match key with
           | some k => if k = "" then gen else k
           | none => gen
    max_age := max_age }

/-- `RedisDict._dumps`: the class-level serializer is always set, so this
is the adapter's encode. -/
def dumpsVal (_d : RedisDict) (value : RValue) : Json :=
  encode value

/-- `RedisDict._loads`: `None` passes through unchanged; otherwise the
adapter's decode. -/
def loadsVal (_d : RedisDict) (value : Option Json) : Option RValue :=
  match value with
  | none => none
  | some j => some (decode j)

/-- The `p.expire(self.key, self.max_age)` staged by every mutating
operation when `max_age` is not `None`, and nothing otherwise. -/
def expireCmds (d : RedisDict) : List Cmd :=
  match d.max_age with
  | some n => [Cmd.expire d.key n]
  | none => []

/-- `RedisDict.__getitem__`: `hget`, raising `KeyError(name)` when the
field is absent, else decoding via `_loads`. -/
def getitem (d : RedisDict) (s : Store) (name : String) : OpResult RValue :=
  if d.redis = false then ⟨.error .noRedis, d, s, []⟩
  else
    match hgetStore s d.key name with
    | none => ⟨.error (.keyError name), d, s, [.hget d.key name]⟩
    | some j => ⟨.ok (decode j), d, s, [.hget d.key name]⟩

/-- `RedisDict.__setitem__`: one pipeline with the encoded `hset` plus the
TTL refresh when configured, executed as one batch. -/
def setitem (d : RedisDict) (s : Store) (name : String) (value : RValue) : OpResult Unit :=
  if d.redis = false then ⟨.error .noRedis, d, s, []⟩
  else
    let cmds := [Cmd.hset d.key name (d.dumpsVal value)] ++ d.expireCmds
    ⟨.ok (), d, execPipeline s cmds, [.pipelineExec cmds]⟩

/-- `RedisDict.__delitem__`: one pipeline with `hdel` plus the TTL refresh
when configured, executed as one batch. -/
def delitem (d : RedisDict) (s : Store) (name : String) : OpResult Unit :=
  if d.redis = false then ⟨.error .noRedis, d, s, []⟩
  else
    let cmds := [Cmd.hdel d.key name] ++ d.expireCmds
    ⟨.ok (), d, execPipeline s cmds, [.pipelineExec cmds]⟩

/-- `RedisDict.__len__`: `hlen`. -/
def lenFields (d : RedisDict) (s : Store) : OpResult Nat :=
  if d.redis = false then ⟨.error .noRedis, d, s, []⟩
  else ⟨.ok ((alookup s.hashes d.key).getD []).length, d, s, [.hlen d.key]⟩

/-- `RedisDict.has_key` (also `__contains__`): `hexists`. -/
def has_key (d : RedisDict) (s : Store) (name : String) : OpResult Bool :=
  if d.redis = false then ⟨.error .noRedis, d, s, []⟩
  else ⟨.ok (hgetStore s d.key name).isSome, d, s, [.hexists d.key name]⟩

/-- `RedisDict.__contains__` delegates to `has_key`. -/
def containsField (d : RedisDict) (s : Store) (name : String) : OpResult Bool :=
  d.has_key s name

/-- `RedisDict.keys`: `hkeys`, the field names. -/
def keys (d : RedisDict) (s : Store) : OpResult (List String) :=
  if d.redis = false then ⟨.error .noRedis, d, s, []⟩
  else ⟨.ok (((alookup s.hashes d.key).getD []).map Prod.fst), d, s, [.hkeys d.key]⟩

/-- `RedisDict.values`: `hvals`, each value decoded via `_loads`. -/
def values (d : RedisDict) (s : Store) : OpResult (List RValue) :=
  if d.redis = false then ⟨.error .noRedis, d, s, []⟩
  else ⟨.ok (((alookup s.hashes d.key).getD []).map (fun kv => decode kv.2)), d, s, [.hvals d.key]⟩

/-- `RedisDict.items`: `hgetall`, each pair's value decoded via `_loads`. -/
def items (d : RedisDict) (s : Store) : OpResult (List (String × RValue)) :=
  if d.redis = false then ⟨.error .noRedis, d, s, []⟩
  else ⟨.ok (((alookup s.hashes d.key).getD []).map (fun kv => (kv.1, decode kv.2))), d, s, [.hgetall d.key]⟩

/-- `RedisDict.delete`: removes the whole hash (`redis.delete`) when the
key is truthy; the local `key` attribute is untouched. -/
def delete (d : RedisDict) (s : Store) : OpResult Unit :=
  if d.redis = false then ⟨.error .noRedis, d, s, []⟩
  else if d.key = "" then ⟨.ok (), d, s, []⟩
  else ⟨.ok (), d, delKeyStore s d.key, [.delKey d.key]⟩

/-- The positional argument of `RedisDict.update`: a mapping or a sequence
of (name, value) tuples; the source stages the same `hset` per entry for
both branches of its `isinstance(other, Mapping)` test. -/
inductive UpdateArg where
  | mapping (entries : List (String × RValue))
  | pairs (entries : List (String × RValue))

/-- Entries of either `update` input form, in iteration order. -/
def UpdateArg.entries : UpdateArg → List (String × RValue)
  | .mapping es => es
  | .pairs es => es

/-- Staged commands of one `update` batch: one encoded `hset` per entry,
then the TTL refresh once when configured. -/
def updateCmds (d : RedisDict) (entries : List (String × RValue)) : List Cmd :=
  entries.map (fun kv => Cmd.hset d.key kv.1 (encode kv.2)) ++ d.expireCmds

/-- `RedisDict.update`: when `other` is not `None`, stage one encoded
`hset` per entry plus the TTL refresh once into a single pipeline and
execute it; when keyword arguments are present, the source then recurses
as `self.update(kwargs)`, producing a second, separately executed batch. -/
def update (d : RedisDict) (s : Store) (other : Option UpdateArg)
    (kwargs : List (String × RValue)) : OpResult Unit :=
  if d.redis = false then ⟨.error .noRedis, d, s, []⟩
  else
    let step1 : Store × List RemoteCall :=
      match other with
      | none => (s, [])
      | some arg =>
          let cmds := d.updateCmds arg.entries
          (execPipeline s cmds, [.pipelineExec cmds])
    let step2 : Store × List RemoteCall :=
      if kwargs.isEmpty then (step1.1, [])
      else
        let cmds := d.updateCmds kwargs
        (execPipeline step1.1 cmds, [.pipelineExec cmds])
    ⟨.ok (), d, step2.1, step1.2 ++ step2.2⟩

/-- `RedisDict.del_keys`: when `fields` is non-empty, stage one `hdel` per
field plus the TTL refresh once into a pipeline; if `delay_execute` return
that unexecuted pipeline, else execute it and return `None`.  When
`fields` is empty nothing is staged and `None` is returned. -/
def del_keys (d : RedisDict) (s : Store) (fields : List String)
    (delay_execute : Bool) : OpResult (Option (List Cmd)) :=
  if d.redis = false then ⟨.error .noRedis, d, s, []⟩
  else if fields.isEmpty then ⟨.ok none, d, s, []⟩
  else
    let cmds := fields.map (fun n => Cmd.hdel d.key n) ++ d.expireCmds
    if delay_execute then ⟨.ok (some cmds), d, s, []⟩
    else ⟨.ok none, d, execPipeline s cmds, [.pipelineExec cmds]⟩

/-- `RedisDict.exists`: `bool(self.key) and bool(self.redis.exists(self.key))`
— short-circuits on a falsy key, otherwise probes key existence. -/
def existsHash (d : RedisDict) (s : Store) : OpResult Bool :=
  if d.redis = false then ⟨.error .noRedis, d, s, []⟩
  else if d.key = "" then ⟨.ok false, d, s, []⟩
  else ⟨.ok (keyExistsStore s d.key), d, s, [.existsKey d.key]⟩

end RedisDict

/-! ## Association-list lemmas -/

theorem alookup_aset_self {α : Type} (l : List (String × α)) (n : String) (w : α) :
    alookup (aset l n w) n = some w := by
  induction l with
  | nil => simp [aset, alookup]
  | cons hd tl ih =>
      obtain ⟨k, v⟩ := hd
      by_cases hk : k = n
      · simp [aset, hk, alookup]
      · simp [aset, hk, alookup, ih]

theorem alookup_aset_other {α : Type} (l : List (String × α)) (n m : String) (w : α)
    (hnm : n ≠ m) : alookup (aset l n w) m = alookup l m := by
  induction l with
  | nil => simp [aset, alookup, hnm]
  | cons hd tl ih =>
      obtain ⟨k, v⟩ := hd
      by_cases hk : k = n
      · subst hk
        simp [aset, alookup, hnm]
      · simp [aset, hk, alookup, ih]

theorem aset_self_of_lookup {α : Type} (l : List (String × α)) (n : String) (w : α)
    (h : alookup l n = some w) : aset l n w = l := by
  induction l with
  | nil => simp [alookup] at h
  | cons hd tl ih =>
      obtain ⟨k, v⟩ := hd
      by_cases hk : k = n
      · subst hk
        simp [alookup] at h
        simp [aset, h]
      · simp [alookup, hk] at h
        simp [aset, hk, ih h]

theorem alookup_aremove_self {α : Type} (l : List (String × α)) (n : String) :
    alookup (aremove l n) n = none := by
  induction l with
  | nil => simp [aremove, alookup]
  | cons hd tl ih =>
      obtain ⟨k, v⟩ := hd
      by_cases hk : k = n
      · simp [aremove, hk, ih]
      · simp [aremove, hk, alookup, ih]

theorem alookup_aremove_other {α : Type} (l : List (String × α)) (n m : String)
    (hnm : n ≠ m) : alookup (aremove l n) m = alookup l m := by
  induction l with
  | nil => simp [aremove]
  | cons hd tl ih =>
      obtain ⟨k, v⟩ := hd
      by_cases hk : k = n
      · subst hk
        simp [aremove, alookup, hnm, ih]
      · simp [aremove, hk, alookup, ih]

theorem aremove_of_lookup_none {α : Type} (l : List (String × α)) (n : String)
    (h : alookup l n = none) : aremove l n = l := by
  induction l with
  | nil => simp [aremove]
  | cons hd tl ih =>
      obtain ⟨k, v⟩ := hd
      by_cases hk : k = n
      · simp [alookup, hk] at h
      · simp [alookup, hk] at h
        simp [aremove, hk, ih h]

/-! ## Store / command lemmas -/

theorem hget_hset_same_key (s : Store) (k f f' : String) (j : Json) :
    hgetStore (applyCmd s (.hset k f j)) k f'
      = if f = f' then some j else hgetStore s k f' := by
  unfold applyCmd hgetStore
  simp only [alookup_aset_self, Option.getD_some]
  by_cases hf : f = f'
  · simp [hf, alookup_aset_self]
  · simp [hf, alookup_aset_other _ _ _ _ hf]

theorem hget_hset_other_key (s : Store) (k k' f f' : String) (j : Json)
    (hk : k ≠ k') : hgetStore (applyCmd s (.hset k f j)) k' f' = hgetStore s k' f' := by
  unfold applyCmd hgetStore
  simp [alookup_aset_other _ _ _ _ hk]

theorem hashes_expire (s : Store) (k : String) (n : Nat) :
    (applyCmd s (.expire k n)).hashes = s.hashes := by
  unfold applyCmd
  by_cases h : (alookup s.hashes k).isSome
  · simp [h]
  · simp [h]

theorem hget_expire (s : Store) (k k' f' : String) (n : Nat) :
    hgetStore (applyCmd s (.expire k n)) k' f' = hgetStore s k' f' := by
  unfold hgetStore
  rw [hashes_expire]

theorem hget_execPipeline_expireCmds (d : RedisDict) (s : Store) (k f : String) :
    hgetStore (execPipeline s d.expireCmds) k f = hgetStore s k f := by
  unfold RedisDict.expireCmds
  cases h : d.max_age with
  | none => simp [execPipeline]
  | some n => simp [execPipeline, hget_expire]

theorem execPipeline_append (s : Store) (a b : List Cmd) :
    execPipeline s (a ++ b) = execPipeline (execPipeline s a) b := by
  unfold execPipeline
  exact List.foldl_append applyCmd s a b

theorem keyExists_hset (s : Store) (k f : String) (j : Json) :
    keyExistsStore (applyCmd s (.hset k f j)) k = true := by
  unfold applyCmd keyExistsStore
  simp [alookup_aset_self]

theorem keyExists_expire (s : Store) (k k' : String) (n : Nat) :
    keyExistsStore (applyCmd s (.expire k n)) k' = keyExistsStore s k' := by
  unfold keyExistsStore
  rw [hashes_expire]

theorem keyExists_delKey (s : Store) (k : String) :
    keyExistsStore (delKeyStore s k) k = false := by
  unfold keyExistsStore delKeyStore
  simp [alookup_aremove_self]

/-- Deleting an absent field changes no field of any hash (pointwise on
`hget`): faithfully includes redis removing an emptied key. -/
theorem hget_hdel_absent (s : Store) (k f : String) (habs : hgetStore s k f = none)
    (k' f' : String) : hgetStore (applyCmd s (.hdel k f)) k' f' = hgetStore s k' f' := by
  simp only [applyCmd]
  cases hk : alookup s.hashes k with
  | none => simp
  | some fields =>
      unfold hgetStore at habs
      rw [hk] at habs
      simp only [Option.getD_some] at habs
      simp only [aremove_of_lookup_none fields f habs]
      by_cases hemp : fields.isEmpty
      · simp only [hemp, if_true]
        unfold hgetStore delKeyStore
        by_cases hkk : k = k'
        · subst hkk
          simp only [alookup_aremove_self, hk]
          cases fields with
          | nil => simp [alookup]
          | cons hd tl => simp [List.isEmpty] at hemp
        · simp [alookup_aremove_other _ _ _ hkk]
      · simp only [hemp, if_false]
        unfold hgetStore
        by_cases hkk : k = k'
        · subst hkk
          simp [alookup_aset_self, hk]
        · simp [alookup_aset_other _ _ _ _ hkk]

/-- Value of a field after staging one `hset` per entry (in order) for one
hash key: the last staged value for that field wins, otherwise the store is
untouched at that field. -/
def lookupLast {α : Type} : List (String × α) → String → Option α
  | [], _ => none
  | (k, v) :: rest, n =>
      match lookupLast rest n with
      | some w => some w
      | none => if k = n then some v else none

theorem hget_exec_hsets (key : String) (entries : List (String × RValue)) (s : Store)
    (n : String) :
    hgetStore (execPipeline s (entries.map (fun kv => Cmd.hset key kv.1 (encode kv.2)))) key n
      = match lookupLast entries n with
        | some v => some (encode v)
        | none => hgetStore s key n := by
  induction entries generalizing s with
  | nil => simp [execPipeline, lookupLast]
  | cons hd tl ih =>
      obtain ⟨k, v⟩ := hd
      simp only [List.map_cons]
      have hstep : execPipeline s
          (Cmd.hset key k (encode v) :: tl.map (fun kv => Cmd.hset key kv.1 (encode kv.2)))
          = execPipeline (applyCmd s (.hset key k (encode v)))
              (tl.map (fun kv => Cmd.hset key kv.1 (encode kv.2))) := rfl
      rw [hstep, ih]
      cases htl : lookupLast tl n with
      | some w => simp [lookupLast, htl]
      | none =>
          rw [hget_hset_same_key]
          by_cases hk : k = n
          · simp [lookupLast, htl, hk]
          · simp [lookupLast, htl, hk]

/-! ## Operation-level helper lemmas -/

theorem isEmpty_false_of_ne_nil {α : Type} {l : List α} (h : l ≠ []) : l.isEmpty = false := by
  cases l with
  | nil => exact absurd rfl h
  | cons hd tl => rfl

theorem keyExists_execPipeline_expireCmds (d : RedisDict) (s : Store) (k : String) :
    keyExistsStore (execPipeline s d.expireCmds) k = keyExistsStore s k := by
  unfold RedisDict.expireCmds
  cases d.max_age with
  | none => simp [execPipeline]
  | some n => simp [execPipeline, keyExists_expire]

theorem setitem_store (d : RedisDict) (s : Store) (name : String) (v : RValue)
    (hr : d.redis = true) :
    (d.setitem s name v).store
      = execPipeline (applyCmd s (.hset d.key name (encode v))) d.expireCmds := by
  simp [RedisDict.setitem, hr, RedisDict.dumpsVal, execPipeline]

theorem delitem_store (d : RedisDict) (s : Store) (name : String) (hr : d.redis = true) :
    (d.delitem s name).store
      = execPipeline (applyCmd s (.hdel d.key name)) d.expireCmds := by
  simp [RedisDict.delitem, hr, execPipeline]

theorem getitem_found (d : RedisDict) (s : Store) (name : String) (j : Json)
    (hr : d.redis = true) (h : hgetStore s d.key name = some j) :
    d.getitem s name = ⟨.ok (decode j), d, s, [.hget d.key name]⟩ := by
  simp [RedisDict.getitem, hr, h]

theorem getitem_missing (d : RedisDict) (s : Store) (name : String)
    (hr : d.redis = true) (h : hgetStore s d.key name = none) :
    d.getitem s name = ⟨.error (.keyError name), d, s, [.hget d.key name]⟩ := by
  simp [RedisDict.getitem, hr, h]

theorem hget_after_setitem (d : RedisDict) (s : Store) (name : String) (v : RValue)
    (hr : d.redis = true) :
    hgetStore (d.setitem s name v).store d.key name = some (encode v) := by
  rw [setitem_store d s name v hr, hget_execPipeline_expireCmds, hget_hset_same_key]
  simp

theorem hget_exec_updateCmds (d : RedisDict) (entries : List (String × RValue))
    (s : Store) (n : String) (v : RValue) (h : lookupLast entries n = some v) :
    hgetStore (execPipeline s (d.updateCmds entries)) d.key n = some (encode v) := by
  unfold RedisDict.updateCmds
  rw [execPipeline_append, hget_execPipeline_expireCmds, hget_exec_hsets, h]

theorem update_store_single (d : RedisDict) (s : Store) (arg : RedisDict.UpdateArg)
    (hr : d.redis = true) :
    (d.update s (some arg) []).store = execPipeline s (d.updateCmds arg.entries) := by
  simp [RedisDict.update, hr]

theorem update_calls_single (d : RedisDict) (s : Store) (arg : RedisDict.UpdateArg)
    (hr : d.redis = true) :
    (d.update s (some arg) []).calls = [.pipelineExec (d.updateCmds arg.entries)] := by
  simp [RedisDict.update, hr]

theorem update_store_both (d : RedisDict) (s : Store) (arg : RedisDict.UpdateArg)
    (kwargs : List (String × RValue)) (hr : d.redis = true) (hk : kwargs ≠ []) :
    (d.update s (some arg) kwargs).store
      = execPipeline (execPipeline s (d.updateCmds arg.entries)) (d.updateCmds kwargs) := by
  simp [RedisDict.update, hr, isEmpty_false_of_ne_nil hk]

theorem update_calls_both (d : RedisDict) (s : Store) (arg : RedisDict.UpdateArg)
    (kwargs : List (String × RValue)) (hr : d.redis = true) (hk : kwargs ≠ []) :
    (d.update s (some arg) kwargs).calls
      = [.pipelineExec (d.updateCmds arg.entries), .pipelineExec (d.updateCmds kwargs)] := by
  simp [RedisDict.update, hr, isEmpty_false_of_ne_nil hk]

theorem getitem_dict (d : RedisDict) (s : Store) (name : String) :
    (d.getitem s name).dict = d := by
  unfold RedisDict.getitem
  split
  · rfl
  · split <;> rfl

theorem setitem_dict (d : RedisDict) (s : Store) (name : String) (v : RValue) :
    (d.setitem s name v).dict = d := by
  unfold RedisDict.setitem
  split <;> rfl

theorem delitem_dict (d : RedisDict) (s : Store) (name : String) :
    (d.delitem s name).dict = d := by
  unfold RedisDict.delitem
  split <;> rfl

theorem lenFields_dict (d : RedisDict) (s : Store) : (d.lenFields s).dict = d := by
  unfold RedisDict.lenFields
  split <;> rfl

theorem has_key_dict (d : RedisDict) (s : Store) (name : String) :
    (d.has_key s name).dict = d := by
  unfold RedisDict.has_key
  split <;> rfl

theorem keys_dict (d : RedisDict) (s : Store) : (d.keys s).dict = d := by
  unfold RedisDict.keys
  split <;> rfl

theorem values_dict (d : RedisDict) (s : Store) : (d.values s).dict = d := by
  unfold RedisDict.values
  split <;> rfl

theorem items_dict (d : RedisDict) (s : Store) : (d.items s).dict = d := by
  unfold RedisDict.items
  split <;> rfl

theorem update_dict (d : RedisDict) (s : Store) (other : Option RedisDict.UpdateArg)
    (kwargs : List (String × RValue)) : (d.update s other kwargs).dict = d := by
  unfold RedisDict.update
  split <;> rfl

theorem del_keys_dict (d : RedisDict) (s : Store) (fields : List String) (delay : Bool) :
    (d.del_keys s fields delay).dict = d := by
  unfold RedisDict.del_keys
  split
  · rfl
  · split
    · rfl
    · split <;> rfl

theorem existsHash_dict (d : RedisDict) (s : Store) : (d.existsHash s).dict = d := by
  unfold RedisDict.existsHash
  split
  · rfl
  · split <;> rfl

theorem delete_dict (d : RedisDict) (s : Store) : (d.delete s).dict = d := by
  unfold RedisDict.delete
  split
  · rfl
  · split <;> rfl

/-! ## Concrete fixtures used by the witnesses -/

/-- An attached-client dictionary with a 30-second TTL. -/
def dictTtl : RedisDict := { redis := true, key := "k", max_age := some 30 }

/-- A dictionary constructed without a redis client. -/
def dictOff : RedisDict := { redis := false, key := "k", max_age := some 30 }

/-- The empty store. -/
def store0 : Store := { hashes := [], ttls := [] }

/-! ## Serializer round trip -/

mutual

theorem decode_encode (v : RValue) : decode (encode v) = v := by
  cases v with
  | str s => rfl
  | int n => rfl
  | bool b => rfl
  | list xs => simp [encode, decode, decodeList_encodeList]
  | dict kvs => simp [encode, decode, decodeDict_encodeDict]

theorem decodeList_encodeList (xs : List RValue) : decodeList (encodeList xs) = xs := by
  cases xs with
  | nil => rfl
  | cons hd tl => simp [encodeList, decodeList, decode_encode, decodeList_encodeList]

theorem decodeDict_encodeDict (kvs : List (String × RValue)) :
    decodeDict (encodeDict kvs) = kvs := by
  cases kvs with
  | nil => rfl
  | cons hd tl =>
      obtain ⟨k, v⟩ := hd
      simp [encodeDict, decodeDict, decode_encode, decodeDict_encodeDict]

end

/-! ## Claim statements and theorems -/

/-- Conclusion of claim C1: each mutating operation issues exactly one
pipeline execution whose staged commands are the mutation commands followed
by `expireCmds`, and `expireCmds` is exactly one `expire(key, N)` when
`max_age = some N` and empty when `max_age = none`. -/
def Claim1Concl (d : RedisDict) (s : Store) (name : String) (v : RValue)
    (arg : RedisDict.UpdateArg) (fields : List String) : Prop :=
  (d.setitem s name v).calls
      = [.pipelineExec ([Cmd.hset d.key name (encode v)] ++ d.expireCmds)]
  ∧ (d.delitem s name).calls
      = [.pipelineExec ([Cmd.hdel d.key name] ++ d.expireCmds)]
  ∧ (d.update s (some arg) []).calls
      = [.pipelineExec (arg.entries.map (fun kv => Cmd.hset d.key kv.1 (encode kv.2))
            ++ d.expireCmds)]
  ∧ (d.del_keys s fields false).calls
      = [.pipelineExec (fields.map (fun n => Cmd.hdel d.key n) ++ d.expireCmds)]
  ∧ (∀ n, d.max_age = some n → d.expireCmds = [Cmd.expire d.key n])
  ∧ (d.max_age = none → d.expireCmds = [])

/-- C1: with a configured TTL `max_age = N`, every mutating operation
(single-field set, single-field delete, bulk update, bulk delete) stages
exactly one `expire(key, N)` into the same pipeline as its mutation
commands and executes that pipeline as one batch dispatch; with
`max_age = None` no expire command is staged. -/
theorem claim1_ttl_refresh_in_same_pipeline (d : RedisDict) (s : Store) (name : String)
    (v : RValue) (arg : RedisDict.UpdateArg) (fields : List String)
    (hr : d.redis = true) (hf : fields ≠ []) :
    Claim1Concl d s name v arg fields := by
  unfold Claim1Concl
  refine ⟨?_, ?_, ?_, ?_, ?_, ?_⟩
  · simp [RedisDict.setitem, hr, RedisDict.dumpsVal]
  · simp [RedisDict.delitem, hr]
  · simp [RedisDict.update, hr, RedisDict.updateCmds]
  · simp [RedisDict.del_keys, hr, isEmpty_false_of_ne_nil hf]
  · intro n hn
    simp [RedisDict.expireCmds, hn]
  · intro hn
    simp [RedisDict.expireCmds, hn]

/-- Witness for C1 at concrete inputs. -/
theorem claim1_witness :
    dictTtl.redis = true ∧ (["A"] : List String) ≠ []
      ∧ Claim1Concl dictTtl store0 "f" (RValue.str "x")
          (RedisDict.UpdateArg.mapping [("A", RValue.str "x")]) ["A"] :=
  ⟨rfl, by simp,
    claim1_ttl_refresh_in_same_pipeline dictTtl store0 "f" (RValue.str "x")
      (RedisDict.UpdateArg.mapping [("A", RValue.str "x")]) ["A"] rfl (by simp)⟩

/-- Conclusion of claim C2: with no attached client every public reading or
mutating operation returns the `RedisDictNoRedisError` outcome, leaves the
store untouched and issues zero remote invocations. -/
def Claim2Concl (d : RedisDict) (s : Store) (name : String) (v : RValue)
    (other : Option RedisDict.UpdateArg) (kwargs : List (String × RValue))
    (fields : List String) (delay : Bool) : Prop :=
  d.getitem s name = ⟨.error .noRedis, d, s, []⟩
  ∧ d.setitem s name v = ⟨.error .noRedis, d, s, []⟩
  ∧ d.delitem s name = ⟨.error .noRedis, d, s, []⟩
  ∧ d.lenFields s = ⟨.error .noRedis, d, s, []⟩
  ∧ d.has_key s name = ⟨.error .noRedis, d, s, []⟩
  ∧ d.containsField s name = ⟨.error .noRedis, d, s, []⟩
  ∧ d.keys s = ⟨.error .noRedis, d, s, []⟩
  ∧ d.values s = ⟨.error .noRedis, d, s, []⟩
  ∧ d.items s = ⟨.error .noRedis, d, s, []⟩
  ∧ d.update s other kwargs = ⟨.error .noRedis, d, s, []⟩
  ∧ d.del_keys s fields delay = ⟨.error .noRedis, d, s, []⟩
  ∧ d.existsHash s = ⟨.error .noRedis, d, s, []⟩
  ∧ d.delete s = ⟨.error .noRedis, d, s, []⟩

/-- C2: with `redis = None`, every public reading or mutating operation
raises `RedisDictNoRedisError` before issuing any remote command and the
store is left completely unchanged with zero remote invocations. -/
theorem claim2_no_redis_all_ops_raise (d : RedisDict) (s : Store) (name : String)
    (v : RValue) (other : Option RedisDict.UpdateArg) (kwargs : List (String × RValue))
    (fields : List String) (delay : Bool) (hr : d.redis = false) :
    Claim2Concl d s name v other kwargs fields delay := by
  unfold Claim2Concl
  refine ⟨?_, ?_, ?_, ?_, ?_, ?_, ?_, ?_, ?_, ?_, ?_, ?_, ?_⟩ <;>
    simp [RedisDict.getitem, RedisDict.setitem, RedisDict.delitem, RedisDict.lenFields,
      RedisDict.has_key, RedisDict.containsField, RedisDict.keys, RedisDict.values,
      RedisDict.items, RedisDict.update, RedisDict.del_keys, RedisDict.existsHash,
      RedisDict.delete, hr]

/-- Witness for C2 at concrete inputs. -/
theorem claim2_witness :
    dictOff.redis = false
      ∧ Claim2Concl dictOff store0 "f" (RValue.str "x") none [] ["A"] false :=
  ⟨rfl, claim2_no_redis_all_ops_raise dictOff store0 "f" (RValue.str "x") none [] ["A"]
      false rfl⟩

/-- Conclusion of claim C3: a write followed by a read of the same field
returns the written value, and a read of an absent field raises
`KeyError(name)`. -/
def Claim3Concl (d : RedisDict) (s : Store) (name : String) (v : RValue) : Prop :=
  (d.getitem (d.setitem s name v).store name).result = .ok v
  ∧ (hgetStore s d.key name = none →
      (d.getitem s name).result = .error (.keyError name))

/-- C3: for every field name and every value in the allowed domain,
`set(f, v)` then `get(f)` returns `v`; `get` on a never-written field
raises the `FieldNotFoundError` condition (`KeyError(name)`). -/
theorem claim3_set_then_get (d : RedisDict) (s : Store) (name : String) (v : RValue)
    (hr : d.redis = true) : Claim3Concl d s name v := by
  unfold Claim3Concl
  constructor
  · rw [getitem_found d _ name (encode v) hr (hget_after_setitem d s name v hr)]
    simp [decode_encode]
  · intro habs
    rw [getitem_missing d s name hr habs]

/-- Witness for C3 at concrete inputs. -/
theorem claim3_witness :
    dictTtl.redis = true ∧ Claim3Concl dictTtl store0 "f" (RValue.int 7) :=
  ⟨rfl, claim3_set_then_get dictTtl store0 "f" (RValue.int 7) rfl⟩

/-- Conclusion of claim C4: on an absent field, the read raises
`KeyError(name)` while the delete succeeds and leaves every field of every
hash unchanged. -/
def Claim4Concl (d : RedisDict) (s : Store) (name : String) : Prop :=
  (d.getitem s name).result = .error (.keyError name)
  ∧ (d.delitem s name).result = .ok ()
  ∧ ∀ k f, hgetStore (d.delitem s name).store k f = hgetStore s k f

/-- C4: for a field absent from the remote structure, `get` raises
`KeyError(name)` carrying the field name, while deleting the same absent
field completes without error and leaves every other field unchanged
(deletion is idempotent). -/
theorem claim4_absent_field (d : RedisDict) (s : Store) (name : String)
    (hr : d.redis = true) (habs : hgetStore s d.key name = none) :
    Claim4Concl d s name := by
  unfold Claim4Concl
  refine ⟨?_, ?_, ?_⟩
  · rw [getitem_missing d s name hr habs]
  · simp [RedisDict.delitem, hr]
  · intro k f
    rw [delitem_store d s name hr, hget_execPipeline_expireCmds,
      hget_hdel_absent s d.key name habs]

/-- Witness for C4 at concrete inputs. -/
theorem claim4_witness :
    dictTtl.redis = true ∧ hgetStore store0 dictTtl.key "f" = none
      ∧ Claim4Concl dictTtl store0 "f" :=
  ⟨rfl, rfl, claim4_absent_field dictTtl store0 "f" rfl rfl⟩

/-- Conclusion of claim C5: one `update` call with a single input stages one
encoded `hset` per entry plus the TTL refresh once, dispatches exactly one
pipeline execution, and afterwards every written field reads back its
written value. -/
def Claim5Concl (d : RedisDict) (s : Store) (arg : RedisDict.UpdateArg) : Prop :=
  (d.update s (some arg) []).calls
      = [.pipelineExec (arg.entries.map (fun kv => Cmd.hset d.key kv.1 (encode kv.2))
            ++ d.expireCmds)]
  ∧ ∀ n v, lookupLast arg.entries n = some v →
      (d.getitem (d.update s (some arg) []).store n).result = .ok v

/-- C5: for every entries input to `update` (mapping or sequence of pairs),
one encoded hash-field-set is staged per entry into a single pipeline, the
TTL refresh is appended exactly once when configured, the whole batch is
executed with exactly one pipeline dispatch regardless of the number of
entries, and afterwards every written field reads back its written value. -/
theorem claim5_update_one_batch (d : RedisDict) (s : Store) (arg : RedisDict.UpdateArg)
    (hr : d.redis = true) : Claim5Concl d s arg := by
  unfold Claim5Concl
  constructor
  · rw [update_calls_single d s arg hr]
    simp [RedisDict.updateCmds]
  · intro n v h
    rw [update_store_single d s arg hr,
      getitem_found d _ n (encode v) hr (hget_exec_updateCmds d arg.entries s n v h)]
    simp [decode_encode]

/-- Witness for C5 at concrete inputs (both input forms). -/
theorem claim5_witness :
    dictTtl.redis = true
      ∧ Claim5Concl dictTtl store0
          (RedisDict.UpdateArg.mapping [("A", RValue.str "x"), ("B", RValue.str "y")])
      ∧ Claim5Concl dictTtl store0
          (RedisDict.UpdateArg.pairs [("A", RValue.str "x"), ("B", RValue.str "y")]) :=
  ⟨rfl,
    claim5_update_one_batch dictTtl store0
      (RedisDict.UpdateArg.mapping [("A", RValue.str "x"), ("B", RValue.str "y")]) rfl,
    claim5_update_one_batch dictTtl store0
      (RedisDict.UpdateArg.pairs [("A", RValue.str "x"), ("B", RValue.str "y")]) rfl⟩

/-- C6: for every value in the domain (string, integer, boolean, nested
containers thereof), the serialization adapter satisfies
`decode(encode(v)) = v` — the decoded value, type included, is identical to
the original (a boolean never decodes to an integer, nesting is
reconstructed exactly) — and `None` passed through the decode path
(`_loads`) returns unchanged. -/
theorem claim6_serializer_roundtrip :
    (∀ v : RValue, decode (encode v) = v)
      ∧ ∀ d : RedisDict, d.loadsVal none = none :=
  ⟨decode_encode, fun _ => rfl⟩

/-- Counterexample to C7 as stated: a `del_keys` call with
`delay_execute = true` but an empty fields collection returns `None`
rather than a staged pipeline handle (the source only creates a pipeline
when `fields` is truthy). -/
theorem claim7_counterexample :
    ¬ ∃ p : List Cmd,
      ((RedisDict.init true (some "k") (some 30) "gen").del_keys store0 [] true).result
        = .ok (some p) := by
  rintro ⟨p, hp⟩
  have h2 : (Except.ok (none : Option (List Cmd)) : Except RError (Option (List Cmd)))
      = .ok (some p) := hp
  exact Option.noConfusion (Except.ok.inj h2)

/-- Conclusion of the amended claim C7: for a non-empty fields collection,
`delay_execute = true` returns the staged, unexecuted pipeline with nothing
dispatched and the store untouched, while `delay_execute = false` executes
the batch immediately and returns `None`; for an empty fields collection
`None` is returned with nothing staged or dispatched. -/
def Claim7Concl (d : RedisDict) (s : Store) (fields : List String) : Prop :=
  ((d.del_keys s fields true).result
      = .ok (some (fields.map (fun n => Cmd.hdel d.key n) ++ d.expireCmds))
    ∧ (d.del_keys s fields true).store = s
    ∧ (d.del_keys s fields true).calls = [])
  ∧ ((d.del_keys s fields false).result = .ok none
    ∧ (d.del_keys s fields false).store
        = execPipeline s (fields.map (fun n => Cmd.hdel d.key n) ++ d.expireCmds)
    ∧ (d.del_keys s fields false).calls
        = [.pipelineExec (fields.map (fun n => Cmd.hdel d.key n) ++ d.expireCmds)])
  ∧ (∀ delay : Bool, (d.del_keys s [] delay).result = .ok none
    ∧ (d.del_keys s [] delay).store = s
    ∧ (d.del_keys s [] delay).calls = [])

/-- C7 (amended): for every `del_keys` call with a non-empty fields
collection, `delay_execute = true` returns the staged but unexecuted
pipeline and dispatches nothing, and `delay_execute = false` executes the
batch immediately and returns `None`; a call with an empty fields
collection returns `None` with nothing staged or dispatched, regardless of
`delay_execute`. -/
theorem claim7_delkeys_delay (d : RedisDict) (s : Store) (fields : List String)
    (hr : d.redis = true) (hf : fields ≠ []) : Claim7Concl d s fields := by
  unfold Claim7Concl
  refine ⟨⟨?_, ?_, ?_⟩, ⟨?_, ?_, ?_⟩, fun delay => ⟨?_, ?_, ?_⟩⟩ <;>
    simp [RedisDict.del_keys, hr, isEmpty_false_of_ne_nil hf]

/-- Witness for the amended C7 at concrete inputs. -/
theorem claim7_witness :
    dictTtl.redis = true ∧ (["A", "B"] : List String) ≠ []
      ∧ Claim7Concl dictTtl store0 ["A", "B"] :=
  ⟨rfl, by simp, claim7_delkeys_delay dictTtl store0 ["A", "B"] rfl (by simp)⟩

/-- Conclusion of claim C8: the identifier is the generated string when no
key argument is supplied, is never empty after construction, is not changed
by any public operation, and `delete` removes the remote structure while
retaining the local identifier, so a subsequent write recreates the
structure under the same identifier. -/
def Claim8Concl (keyArg : Option String) (ma : Option Nat) (gen : String) (s : Store)
    (name : String) (v : RValue) : Prop :=
  (RedisDict.init true none ma gen).key = gen
  ∧ (RedisDict.init true keyArg ma gen).key ≠ ""
  ∧ (∀ d : RedisDict,
      (d.getitem s name).dict = d ∧ (d.setitem s name v).dict = d
      ∧ (d.delitem s name).dict = d ∧ (d.lenFields s).dict = d
      ∧ (d.has_key s name).dict = d ∧ (d.keys s).dict = d
      ∧ (d.values s).dict = d ∧ (d.items s).dict = d
      ∧ (∀ other kwargs, (d.update s other kwargs).dict = d)
      ∧ (∀ fields delay, (d.del_keys s fields delay).dict = d)
      ∧ (d.existsHash s).dict = d ∧ (d.delete s).dict = d)
  ∧ ((RedisDict.init true keyArg ma gen).delete s).dict.key
      = (RedisDict.init true keyArg ma gen).key
  ∧ keyExistsStore ((RedisDict.init true keyArg ma gen).delete s).store
      (RedisDict.init true keyArg ma gen).key = false
  ∧ keyExistsStore
      ((RedisDict.init true keyArg ma gen).setitem
        ((RedisDict.init true keyArg ma gen).delete s).store name v).store
      (RedisDict.init true keyArg ma gen).key = true

/-- C8: the identifier is a non-empty string immediately after construction
— generated (UUID) when no identifier argument is supplied — no operation
changes it, and `delete()` removes the remote structure but retains the
local identifier, so a subsequent write recreates the structure under the
same identifier. -/
theorem claim8_identifier_stable (keyArg : Option String) (ma : Option Nat)
    (gen : String) (s : Store) (name : String) (v : RValue) (hgen : gen ≠ "") :
    Claim8Concl keyArg ma gen s name v := by
  have hkey : (RedisDict.init true keyArg ma gen).key ≠ "" := by
    unfold RedisDict.init
    cases keyArg with
    | none => exact hgen
    | some k =>
        by_cases hk : k = ""
        · simp only [hk, if_true]
          exact hgen
        · simp only [hk, if_false]
          exact hk
  have hredis : (RedisDict.init true keyArg ma gen).redis = true := rfl
  have hdel : ((RedisDict.init true keyArg ma gen).delete s).store
      = delKeyStore s (RedisDict.init true keyArg ma gen).key := by
    simp [RedisDict.delete, hkey, hredis]
  unfold Claim8Concl
  refine ⟨?_, hkey, ?_, ?_, ?_, ?_⟩
  · unfold RedisDict.init
    rfl
  · intro d
    exact ⟨getitem_dict d s name, setitem_dict d s name v, delitem_dict d s name,
      lenFields_dict d s, has_key_dict d s name, keys_dict d s, values_dict d s,
      items_dict d s, fun other kwargs => update_dict d s other kwargs,
      fun fields delay => del_keys_dict d s fields delay, existsHash_dict d s,
      delete_dict d s⟩
  · rw [delete_dict]
  · rw [hdel, keyExists_delKey]
  · rw [hdel, setitem_store _ _ name v rfl, keyExists_execPipeline_expireCmds,
      keyExists_hset]

/-- Witness for C8 at concrete inputs. -/
theorem claim8_witness :
    ("3fa85f64-uuid" : String) ≠ ""
      ∧ Claim8Concl none (some 30) "3fa85f64-uuid" store0 "f" (RValue.bool true) :=
  ⟨by simp, claim8_identifier_stable none (some 30) "3fa85f64-uuid" store0 "f"
    (RValue.bool true) (by simp)⟩

/-- Conclusion of claim C9: `exists()` reports exactly whether the hash key
is present in the store, and is effect-free — the object, the store and
the trace (one pure existence probe, no mutating or creating command) are
all as before. -/
def Claim9Concl (d : RedisDict) (s : Store) : Prop :=
  (d.existsHash s).result = .ok (keyExistsStore s d.key)
  ∧ (d.existsHash s).dict = d
  ∧ (d.existsHash s).store = s
  ∧ (d.existsHash s).calls = [.existsKey d.key]

/-- C9: with an attached client, `exists()` returns true exactly when the
remote key named by the identifier currently exists, issues only a single
existence probe (no mutating or creating command), and leaves the
instance's local state and the store unchanged. -/
theorem claim9_exists_pure (d : RedisDict) (s : Store) (hr : d.redis = true)
    (hk : d.key ≠ "") : Claim9Concl d s := by
  unfold Claim9Concl
  refine ⟨?_, ?_, ?_, ?_⟩ <;> simp [RedisDict.existsHash, hr, hk]

/-- Witness for C9 at concrete inputs. -/
theorem claim9_witness :
    dictTtl.redis = true ∧ dictTtl.key ≠ "" ∧ Claim9Concl dictTtl store0 :=
  ⟨rfl, by simp [dictTtl], claim9_exists_pure dictTtl store0 rfl (by simp [dictTtl])⟩

/-- Conclusion of claim C10: `update` with both a positional argument and
keyword arguments dispatches exactly two pipeline executions — the keyword
batch second — and for every name in the keyword arguments the keyword
value is the one finally stored. -/
def Claim10Concl (d : RedisDict) (s : Store) (arg : RedisDict.UpdateArg)
    (kwargs : List (String × RValue)) : Prop :=
  (d.update s (some arg) kwargs).calls
      = [.pipelineExec (d.updateCmds arg.entries), .pipelineExec (d.updateCmds kwargs)]
  ∧ ∀ n v, lookupLast kwargs n = some v →
      (d.getitem (d.update s (some arg) kwargs).store n).result = .ok v

/-- C10: a call to `update` supplying both a non-`None` positional argument
and keyword arguments stages and executes the keyword entries in a second,
separate pipeline batch after the positional batch (two pipeline
executions in total), so for any field name present in both inputs the
keyword argument's value is the one finally stored. -/
theorem claim10_update_kwargs_second_batch (d : RedisDict) (s : Store)
    (arg : RedisDict.UpdateArg) (kwargs : List (String × RValue))
    (hr : d.redis = true) (hk : kwargs ≠ []) : Claim10Concl d s arg kwargs := by
  unfold Claim10Concl
  constructor
  · exact update_calls_both d s arg kwargs hr hk
  · intro n v h
    rw [update_store_both d s arg kwargs hr hk,
      getitem_found d _ n (encode v) hr (hget_exec_updateCmds d kwargs _ n v h)]
    simp [decode_encode]

/-- Witness for C10 at concrete inputs: field "A" appears in both the
positional mapping and the keyword arguments. -/
theorem claim10_witness :
    dictTtl.redis = true ∧ ([("A", RValue.str "kw")] : List (String × RValue)) ≠ []
      ∧ Claim10Concl dictTtl store0
          (RedisDict.UpdateArg.mapping [("A", RValue.str "pos")])
          [("A", RValue.str "kw")] :=
  ⟨rfl, by simp,
    claim10_update_kwargs_second_batch dictTtl store0
      (RedisDict.UpdateArg.mapping [("A", RValue.str "pos")])
      [("A", RValue.str "kw")] rfl (by simp)⟩

end RedisDictModel
